import Mathlib

/-!
Shallow embedding of the performance and resilience layer of the
centerpoint-connect-api repository, together with theorems checking the
natural-language specification against the code.

Source files embedded:
- `src/performance.ts` : `ResponseCache`, `RequestBatcher`, `RequestMetrics`
- `src/security.ts`    : `maskToken`, `AuthRateLimiter`
- monitoring module    : `HealthMonitor.getHealthStatus`, `recordAuth`

JavaScript `Map` objects are modelled as association lists in insertion
order: `set` on a fresh key appends at the tail, `set` on a present key
updates the entry in place (keeping its position, as JS `Map` does), and
`delete` removes the entry.  `Date.now()` timestamps are `Nat`
milliseconds; JS floating-point rates and averages are modelled as `ℚ`.
-/

namespace CenterpointConnect

/-! ## JS `Map` as an insertion-ordered association list -/

/-- JS `Map.get`: the value at the first (unique) occurrence of a key. -/
def mapGet {α : Type} (k : Nat) : List (Nat × α) → Option α
  | [] => none
  | (k', v) :: rest => if k' = k then some v else mapGet k rest

/-- JS `Map.set`: update in place when the key is present (its position in
iteration order is kept, as JS `Map` does), otherwise append at the tail. -/
def mapSet {α : Type} (k : Nat) (v : α) : List (Nat × α) → List (Nat × α)
  | [] => [(k, v)]
  | (k', v') :: rest =>
      if k' = k then (k, v) :: rest else (k', v') :: mapSet k v rest

/-- JS `Map.delete`: remove the entry with the given key. -/
def mapDelete {α : Type} (k : Nat) : List (Nat × α) → List (Nat × α)
  | [] => []
  | (k', v') :: rest =>
      if k' = k then rest else (k', v') :: mapDelete k rest

/-- JS `map.keys().next().value`: the first key in iteration order,
which is the earliest-inserted surviving key. -/
def mapFirstKey {α : Type} (m : List (Nat × α)) : Option Nat :=
  (m.head?).map Prod.fst

/-! ## ResponseCache (src/performance.ts, lines 18-105)

`CacheEntry` keeps the fields involved in expiry: `timestamp` is
`Date.now()` at store time and `expires` is the optional `ttlMs` argument
of `set` (`undefined` when not passed, modelled as `none`).  The payload
and validator headers play no role in the claims and are left out of the
entry record; the claims quantify over arbitrary entries. -/

structure CacheEntry where
  timestamp : Nat
  expires : Option Nat
  deriving Repr, DecidableEq

/-- `const ttl = entry.expires || this.defaultTtl` — JS `||` takes the
default whenever `expires` is falsy, i.e. `undefined` *or* `0`. -/
def effectiveTtl (defaultTtl : Nat) (e : CacheEntry) : Nat :=
  match e.expires with
  | none => defaultTtl
  | some v => if v = 0 then defaultTtl else v

/-- `ResponseCache.get` on the entry stored under the looked-up key
(after `createCacheKey` resolution): returns the lookup result and the
store contents for that key afterwards.  An entry is expired when
`now - entry.timestamp > ttl`; an expired entry is deleted and `null`
returned. -/
def cacheGet (defaultTtl now : Nat) (entry : Option CacheEntry) :
    Option CacheEntry × Option CacheEntry :=
  match entry with
  | none => (none, none)
  | some e =>
      if now - e.timestamp > effectiveTtl defaultTtl e then (none, none)
      else (some e, some e)

/-- The expiry test the spec sentence describes, word for word:
`now - receivedAt > (ttlOverride ?? defaultTtl)`.  JS `??` falls back to
the default only when the override is `undefined`, so an override of `0`
stays `0`.  Declared only to be compared with the source's
`effectiveTtl`. -/
def specEffectiveTtl (defaultTtl : Nat) (e : CacheEntry) : Nat :=
  match e.expires with
  | none => defaultTtl
  | some v => v

/-- `ResponseCache.set` (lines 54-73): when `size >= maxSize`, delete the
first key in iteration order (`this.cache.keys().next().value`), then
insert the new entry. -/
def cacheSet (maxSize : Nat) (m : List (Nat × CacheEntry)) (k : Nat)
    (e : CacheEntry) : List (Nat × CacheEntry) :=
  let m' :=
    if m.length ≥ maxSize then
      match mapFirstKey m with
      | some oldestKey => mapDelete oldestKey m
      | none => m
    else m
  mapSet k e m'

/-- A whole history of `store` calls, from the cache's initial empty map. -/
def cacheRun (maxSize : Nat) (ops : List (Nat × CacheEntry)) :
    List (Nat × CacheEntry) :=
  ops.foldl (fun m op => cacheSet maxSize m op.1 op.2) []

/-! ## AuthRateLimiter (src/security.ts, lines 73-118) -/

/-- One record of `this.attempts`: `{ count, firstAttempt }`. -/
structure RateRecord where
  count : Nat
  firstAttempt : Nat
  deriving Repr, DecidableEq

/-- `AuthRateLimiter.isAllowed` for a single identifier: takes the stored
record for that identifier (`none` when absent) and the current time, and
returns the boolean answer together with the record stored afterwards. -/
def isAllowed (maxAttempts windowMs : Nat) (record : Option RateRecord)
    (now : Nat) : Bool × RateRecord :=
  match record with
  | none => (true, ⟨1, now⟩)
  | some r =>
      if now - r.firstAttempt > windowMs then (true, ⟨1, now⟩)
      else if r.count ≥ maxAttempts then (false, r)
      else (true, ⟨r.count + 1, r.firstAttempt⟩)

/-- A sequence of `isAllowed` calls for one identifier at the given times:
the list of returned booleans and the final stored record. -/
def isAllowedRun (maxAttempts windowMs : Nat) (record : Option RateRecord) :
    List Nat → List Bool × Option RateRecord
  | [] => ([], record)
  | t :: ts =>
      let step := isAllowed maxAttempts windowMs record t
      let rest := isAllowedRun maxAttempts windowMs (some step.2) ts
      (step.1 :: rest.1, rest.2)

/-! ## maskToken (src/security.ts, lines 57-68)

Tokens are modelled as `List Char`.  The regex `/^Bearer\s+/i` strips a
case-insensitive `Bearer` followed by a maximal run of whitespace;
`trim` strips whitespace from both ends. -/

/-- JS `\s` / `trim` whitespace (the characters relevant to tokens). -/
def isJsSpace (c : Char) : Bool :=
  c = ' ' || c = '\t' || c = '\n' || c = '\r' ||
  c = (Char.ofNat 11) || c = (Char.ofNat 12) || c = (Char.ofNat 160)

/-- `token.replace(/^Bearer\s+/i, '')`: drop a leading case-insensitive
`Bearer` plus the (greedy) run of whitespace after it, when present. -/
def stripBearer (t : List Char) : List Char :=
  match t with
  | c1 :: c2 :: c3 :: c4 :: c5 :: c6 :: rest =>
      if (c1.toLower = 'b' && c2.toLower = 'e' && c3.toLower = 'a' &&
          c4.toLower = 'r' && c5.toLower = 'e' && c6.toLower = 'r') &&
         (match rest with
          | c :: _ => isJsSpace c
          | [] => false) then
        rest.dropWhile isJsSpace
      else t
  | _ => t

/-- JS `String.prototype.trim`. -/
def jsTrim (t : List Char) : List Char :=
  ((t.dropWhile isJsSpace).reverse.dropWhile isJsSpace).reverse

/-- `const cleanToken = token.replace(/^Bearer\s+/i, '').trim()`. -/
def cleanToken (t : List Char) : List Char :=
  jsTrim (stripBearer t)

/-- `maskToken` (lines 57-68): empty input gives `[EMPTY]`; a clean token
of at most 8 characters gives `[REDACTED]`; otherwise first 4 characters,
`min 12 (length - 8)` asterisks, last 4 characters. -/
def maskToken (t : List Char) : List Char :=
  if t = [] then "[EMPTY]".toList
  else
    let c := cleanToken t
    if c.length ≤ 8 then "[REDACTED]".toList
    else
      c.take 4 ++ List.replicate (min 12 (c.length - 8)) '*' ++
        c.drop (c.length - 4)

/-! ## HealthMonitor (monitoring module, `getHealthStatus` / `recordAuth`)

The metrics object carries the counters `getHealthStatus` reads.
`avgResponseTime` is the arithmetic mean maintained by `recordRequest`
(a JS float, modelled as `ℚ`); `lastErrorTime` is `null` until the first
`recordError` (modelled as `Option Nat`). -/

structure RequestCounters where
  total : Nat
  successful : Nat
  failed : Nat
  avgResponseTime : ℚ
  deriving Repr, DecidableEq

structure AuthCounters where
  successful : Nat
  failed : Nat
  rateLimited : Nat
  deriving Repr, DecidableEq

structure CacheCounters where
  hits : Nat
  misses : Nat
  deriving Repr, DecidableEq

structure ErrorCounters where
  count : Nat
  lastErrorTime : Option Nat
  deriving Repr, DecidableEq

structure HealthMetrics where
  requests : RequestCounters
  auth : AuthCounters
  cache : CacheCounters
  errors : ErrorCounters
  deriving Repr, DecidableEq

/-- `recordAuth` increments exactly one of the three auth counters. -/
inductive AuthEvent | success | failure | ratelimited
  deriving Repr, DecidableEq

def recordAuth (m : HealthMetrics) : AuthEvent → HealthMetrics
  | .success => { m with auth := { m.auth with successful := m.auth.successful + 1 } }
  | .failure => { m with auth := { m.auth with failed := m.auth.failed + 1 } }
  | .ratelimited => { m with auth := { m.auth with rateLimited := m.auth.rateLimited + 1 } }

/-- `successRate`: `total > 0 ? successful / total * 100 : 100`. -/
def successRate (m : HealthMetrics) : ℚ :=
  if m.requests.total > 0 then
    ((m.requests.successful : ℚ) / (m.requests.total : ℚ)) * 100
  else 100

/-- The four boolean checks of `getHealthStatus`. -/
structure HealthChecks where
  highSuccessRate : Bool
  noRecentErrors : Bool
  reasonableResponseTime : Bool
  authWorking : Bool
  deriving Repr, DecidableEq

def getChecks (m : HealthMetrics) (now : Nat) : HealthChecks where
  highSuccessRate := successRate m ≥ 95
  noRecentErrors :=
    match m.errors.lastErrorTime with
    | none => true
    | some t => now - t > 5 * 60 * 1000
  reasonableResponseTime := m.requests.avgResponseTime < 5000
  authWorking := (m.auth.failed : ℚ) < (m.auth.successful : ℚ) * (1 / 10)

/-- `Object.values(checks).filter(Boolean).length`. -/
def healthyCount (c : HealthChecks) : Nat :=
  [c.highSuccessRate, c.noRecentErrors, c.reasonableResponseTime,
    c.authWorking].count true

inductive HealthStatus | healthy | degraded | unhealthy
  deriving Repr, DecidableEq

/-- The status branch of `getHealthStatus`: healthy when all 4 checks
pass, degraded when `healthyChecks >= 4 * 0.7`, else unhealthy. -/
def getHealthStatus (m : HealthMetrics) (now : Nat) : HealthStatus :=
  let n := healthyCount (getChecks m now)
  if n = 4 then .healthy
  else if (n : ℚ) ≥ 4 * (7 / 10) then .degraded
  else .unhealthy

/-- The spec's health scenario read literally: 100 recorded requests of
which 96 succeeded, no recorded error, average latency 200 ms, and zero
recorded auth activity (so in particular 0 auth failures). -/
def scenarioNoAuth : HealthMetrics :=
  ⟨⟨100, 96, 4, 200⟩, ⟨0, 0, 0⟩, ⟨0, 0⟩, ⟨0, none⟩⟩

/-- The same scenario with one recorded auth success. -/
def scenarioOneAuth : HealthMetrics :=
  ⟨⟨100, 96, 4, 200⟩, ⟨1, 0, 0⟩, ⟨0, 0⟩, ⟨0, none⟩⟩

/-! ## RequestBatcher (src/performance.ts, lines 110-180)

Result distribution (the body of `executeBatch`'s `try`/`catch`) is
modelled by `settleBatch`; the batch-map lifecycle (`add`, the timer
callback and the size-triggered flush) by a step function on the batch
map, with requests and executors identified by `Nat` ids.  `setTimeout`'s
callback closes over the executor passed to the `add` call that created
the group; this captured id is the group's `timerExec`. -/

/-- What one pending request's promise receives: `resolve(results[index])`
(with `undefined`, i.e. `none`, when the index is out of range) or
`reject(error)`. -/
inductive Outcome (ε τ : Type) where
  | resolved (t : Option τ)
  | rejected (e : ε)
  deriving Repr, DecidableEq

/-- `batch.requests.forEach((req, index) => req.resolve(results[index]))`,
unrolled with the running index. -/
def resolveFrom {ρ ε τ : Type} (results : List τ) :
    Nat → List ρ → List (ρ × Outcome ε τ)
  | _, [] => []
  | i, r :: rs => (r, .resolved results[i]?) :: resolveFrom results (i + 1) rs

/-- The `try`/`catch` of `executeBatch` (lines 167-178): on success each
pending request, in order, resolves with the result at its own index; on
failure each rejects with the caught error. -/
def settleBatch {ρ ε τ : Type} (reqs : List ρ) (res : Except ε (List τ)) :
    List (ρ × Outcome ε τ) :=
  match res with
  | .ok results => resolveFrom results 0 reqs
  | .error e => reqs.map fun r => (r, .rejected e)

/-- One entry of `this.batches`: the pending request ids in enqueue order
and the executor id captured by the group's `setTimeout` closure. -/
structure Group where
  requests : List Nat
  timerExec : Nat
  deriving Repr, DecidableEq

/-- One executor invocation: the configs handed over (request ids, in
enqueue order) and which executor was called. -/
structure Flush where
  requests : List Nat
  exec : Nat
  deriving Repr, DecidableEq

/-- The externally triggered events: `add(config, executor)` resolved to a
group key, and a group's `setTimeout` callback firing. -/
inductive BEvent where
  | add (key req exec : Nat)
  | fire (key : Nat)
  deriving Repr, DecidableEq

/-- One step of the batcher.  `add`: open the group if absent (arming the
timer with the current executor), push the request, and flush immediately
(with the *current* call's executor, and after deleting the group from the
map) when the group reached `maxBatchSize`.  `fire`: the timer callback is
`executeBatch(batchKey, executor-at-creation)`; it is a no-op when the
group is gone (`if (!batch) return`). -/
def step (maxBatchSize : Nat) (s : List (Nat × Group)) :
    BEvent → List (Nat × Group) × Option Flush
  | .add key req exec =>
      let g0 : Group :=
        match mapGet key s with
        | none => ⟨[], exec⟩
        | some g => g
      let g1 : Group := ⟨g0.requests ++ [req], g0.timerExec⟩
      let s1 := mapSet key g1 s
      if g1.requests.length ≥ maxBatchSize then
        (mapDelete key s1, some ⟨g1.requests, exec⟩)
      else (s1, none)
  | .fire key =>
      match mapGet key s with
      | none => (s, none)
      | some g => (mapDelete key s, some ⟨g.requests, g.timerExec⟩)

/-- Run a sequence of events, collecting every executor invocation. -/
def runB (maxBatchSize : Nat) (s : List (Nat × Group)) :
    List BEvent → List (Nat × Group) × List Flush
  | [] => (s, [])
  | e :: es =>
      let st := step maxBatchSize s e
      let rest := runB maxBatchSize st.1 es
      (rest.1, st.2.toList ++ rest.2)

/-- The request ids still pending inside the batch map. -/
def pendingIds (s : List (Nat × Group)) : List Nat :=
  (s.map fun kg => kg.2.requests).flatten

/-- The request ids handed to some executor invocation, in order. -/
def flushedIds (fs : List Flush) : List Nat :=
  (fs.map Flush.requests).flatten

/-- The request ids introduced by the `add` events of a run. -/
def addIds : List BEvent → List Nat
  | [] => []
  | .add _ r _ :: es => r :: addIds es
  | .fire _ :: es => addIds es

/-- The request ids of one optional executor invocation. -/
def optFlushIds : Option Flush → List Nat
  | none => []
  | some f => f.requests

end CenterpointConnect

namespace CenterpointConnect

/-! ## Association-list lemmas -/

theorem mapGet_mapSet_self {α : Type} (k : Nat) (v : α) (m : List (Nat × α)) :
    mapGet k (mapSet k v m) = some v := by
  induction m with
  | nil => simp [mapGet, mapSet]
  | cons hd tl ih =>
      obtain ⟨k', v'⟩ := hd
      by_cases hk : k' = k
      · simp [mapGet, mapSet, hk]
      · simp [mapGet, mapSet, hk, ih]

theorem mapGet_none_not_mem {α : Type} {k : Nat} {m : List (Nat × α)}
    (h : mapGet k m = none) : ∀ v, (k, v) ∉ m := by
  induction m with
  | nil => simp
  | cons hd tl ih =>
      obtain ⟨k', v'⟩ := hd
      by_cases hk : k' = k
      · simp [mapGet, hk] at h
      · simp only [mapGet, hk, if_false] at h
        intro v hv
        rcases List.mem_cons.mp hv with h1 | h1
        · exact hk (congrArg Prod.fst h1).symm
        · exact ih h v h1

theorem mapSet_of_get_none {α : Type} (k : Nat) (v : α) {m : List (Nat × α)}
    (h : mapGet k m = none) : mapSet k v m = m ++ [(k, v)] := by
  induction m with
  | nil => simp [mapSet]
  | cons hd tl ih =>
      obtain ⟨k', v'⟩ := hd
      by_cases hk : k' = k
      · simp [mapGet, hk] at h
      · simp only [mapGet, hk, if_false] at h
        simp [mapSet, hk, ih h]

theorem mapDelete_append_self {α : Type} (k : Nat) (v : α)
    {m : List (Nat × α)} (h : mapGet k m = none) :
    mapDelete k (m ++ [(k, v)]) = m := by
  induction m with
  | nil => simp [mapDelete]
  | cons hd tl ih =>
      obtain ⟨k', v'⟩ := hd
      by_cases hk : k' = k
      · simp [mapGet, hk] at h
      · simp only [mapGet, hk, if_false] at h
        simp [mapDelete, hk, ih h]

theorem mapDelete_mapSet {α : Type} (k : Nat) (g' : α) {m : List (Nat × α)}
    {g : α} (h : mapGet k m = some g) :
    mapDelete k (mapSet k g' m) = mapDelete k m := by
  induction m with
  | nil => simp [mapGet] at h
  | cons hd tl ih =>
      obtain ⟨k', v'⟩ := hd
      by_cases hk : k' = k
      · simp [mapSet, mapDelete, hk]
      · simp only [mapGet, hk, if_false] at h
        simp [mapSet, mapDelete, hk, ih h]

theorem mapGet_of_not_mem_keys {α : Type} {k : Nat} {m : List (Nat × α)}
    (h : k ∉ m.map Prod.fst) : mapGet k m = none := by
  induction m with
  | nil => rfl
  | cons hd tl ih =>
      obtain ⟨k', v'⟩ := hd
      simp only [List.map_cons, List.mem_cons] at h
      push_neg at h
      have hne : ¬ k' = k := fun hkk => h.1 hkk.symm
      simp [mapGet, hne, ih h.2]

theorem mapGet_mapDelete_mapSet_self {α : Type} (k : Nat) (v : α)
    {m : List (Nat × α)} (h : (m.map Prod.fst).Nodup) :
    mapGet k (mapDelete k (mapSet k v m)) = none := by
  induction m with
  | nil => simp [mapSet, mapDelete, mapGet]
  | cons hd tl ih =>
      obtain ⟨k', v'⟩ := hd
      simp only [List.map_cons, List.nodup_cons] at h
      by_cases hk : k' = k
      · subst hk
        simp only [mapSet, mapDelete, if_pos rfl]
        exact mapGet_of_not_mem_keys h.1
      · simp [mapSet, mapDelete, mapGet, hk, ih h.2]

/-! ## C8: token masking -/

/-- C8: `maskToken` returns a fixed redaction marker (`[REDACTED]`, or
`[EMPTY]` for the empty string) whenever the cleaned token — the token
after stripping a `Bearer` marker and surrounding whitespace — has 8 or
fewer characters, and otherwise returns the cleaned token's first 4
characters, then a masked middle, then its last 4 characters; in
particular `maskToken "abcd1234efgh5678"` is `abcd********5678` and
`maskToken "short"` is `[REDACTED]`. -/
theorem maskToken_spec (t : List Char) :
    ((cleanToken t).length ≤ 8 →
      maskToken t = "[REDACTED]".toList ∨ maskToken t = "[EMPTY]".toList) ∧
    (8 < (cleanToken t).length →
      maskToken t =
        (cleanToken t).take 4 ++
          List.replicate (min 12 ((cleanToken t).length - 8)) '*' ++
          (cleanToken t).drop ((cleanToken t).length - 4)) ∧
    maskToken "abcd1234efgh5678".toList =
      ("abcd".toList ++ List.replicate 8 '*' ++ "5678".toList) ∧
    maskToken "short".toList = "[REDACTED]".toList := by
  refine ⟨?_, ?_, by decide, by decide⟩
  · intro h
    by_cases ht : t = []
    · right
      simp [maskToken, ht]
    · left
      simp [maskToken, ht, h]
  · intro h
    have ht : t ≠ [] := by
      intro ht
      rw [ht] at h
      simp [cleanToken, stripBearer, jsTrim] at h
    simp [maskToken, ht, Nat.not_le.mpr h]

/-- Closed instances of `maskToken_spec`, discharging each hypothesis at a
concrete token. -/
theorem maskToken_spec_witness :
    (maskToken "ab".toList = "[REDACTED]".toList ∨
      maskToken "ab".toList = "[EMPTY]".toList) ∧
    maskToken "abcd1234efgh5678".toList =
      (cleanToken "abcd1234efgh5678".toList).take 4 ++
        List.replicate
          (min 12 ((cleanToken "abcd1234efgh5678".toList).length - 8)) '*' ++
        (cleanToken "abcd1234efgh5678".toList).drop
          ((cleanToken "abcd1234efgh5678".toList).length - 4) :=
  ⟨(maskToken_spec "ab".toList).1 (by decide),
    (maskToken_spec "abcd1234efgh5678".toList).2.1 (by decide)⟩

/-! ## C4: authentication rate limiter -/

/-- C4: with `maxAttempts = 5` and `windowMs = 900000`, five consecutive
`isAllowed` calls for an identifier within the window return `true`, a
sixth call within the window returns `false` and leaves the record at
count 5 with the original window start, and a later call strictly past
the window returns `true` and resets the record to count 1 with a fresh
window start. -/
theorem rateLimiter_window (t1 t2 t3 t4 t5 t6 t7 : Nat)
    (h2 : t2 - t1 ≤ 900000) (h3 : t3 - t1 ≤ 900000)
    (h4 : t4 - t1 ≤ 900000) (h5 : t5 - t1 ≤ 900000)
    (h6 : t6 - t1 ≤ 900000) (h7 : 900000 < t7 - t1) :
    isAllowedRun 5 900000 none [t1, t2, t3, t4, t5, t6] =
      ([true, true, true, true, true, false], some ⟨5, t1⟩) ∧
    isAllowed 5 900000 (some ⟨5, t1⟩) t7 = (true, ⟨1, t7⟩) := by
  have n2 : ¬ t2 - t1 > 900000 := by omega
  have n3 : ¬ t3 - t1 > 900000 := by omega
  have n4 : ¬ t4 - t1 > 900000 := by omega
  have n5 : ¬ t5 - t1 > 900000 := by omega
  have n6 : ¬ t6 - t1 > 900000 := by omega
  constructor
  · simp [isAllowedRun, isAllowed, n2, n3, n4, n5, n6]
  · simp [isAllowed, h7]

/-- Closed instance of `rateLimiter_window` at the calls
`0, 1, 2, 3, 4, 5` and the post-window call `900001`. -/
theorem rateLimiter_window_witness :
    isAllowedRun 5 900000 none [0, 1, 2, 3, 4, 5] =
      ([true, true, true, true, true, false], some ⟨5, 0⟩) ∧
    isAllowed 5 900000 (some ⟨5, 0⟩) 900001 = (true, ⟨1, 900001⟩) :=
  rateLimiter_window 0 1 2 3 4 5 900001 (by decide) (by decide)
    (by decide) (by decide) (by decide) (by decide)

/-! ## C2: response-cache expiry -/

/-- C2 counterexample: the spec's effective TTL is
`ttlOverride ?? defaultTtl`, which keeps an override of `0`; the code's is
`entry.expires || this.defaultTtl`, which drops it.  For the entry stored
with `ttlOverride = 0` at time 0, looked up at time 1 under a default TTL
of 100: `now - receivedAt = 1` strictly exceeds the spec's effective TTL
`0`, so by the claim the lookup must miss — yet the code returns the entry
as a hit. -/
theorem cacheGet_ttlOverride_zero_counterexample :
    specEffectiveTtl 100 ⟨0, some 0⟩ < 1 - (CacheEntry.timestamp ⟨0, some 0⟩) ∧
    (cacheGet 100 1 (some ⟨0, some 0⟩)).1 = some ⟨0, some 0⟩ := by
  decide

/-- C2 amended: `get` misses iff `now - timestamp` strictly exceeds the
effective TTL, where the effective TTL is the stored `ttlMs` override when
one was supplied *and is nonzero*, and the default TTL otherwise (JS `||`:
an override of `0` falls back to the default); an expired entry is deleted
by that lookup, and a hit returns exactly the stored, unexpired entry. -/
theorem cacheGet_expiry_spec (defaultTtl now : Nat) (e : CacheEntry) :
    ((cacheGet defaultTtl now (some e)).1 = none ↔
      effectiveTtl defaultTtl e < now - e.timestamp) ∧
    ((cacheGet defaultTtl now (some e)).1 = some e ↔
      ¬ effectiveTtl defaultTtl e < now - e.timestamp) ∧
    (effectiveTtl defaultTtl e < now - e.timestamp →
      (cacheGet defaultTtl now (some e)).2 = none) ∧
    (∀ v, e.expires = some v → v ≠ 0 → effectiveTtl defaultTtl e = v) ∧
    (e.expires = none → effectiveTtl defaultTtl e = defaultTtl) ∧
    (e.expires = some 0 → effectiveTtl defaultTtl e = defaultTtl) := by
  refine ⟨?_, ?_, ?_, ?_, ?_, ?_⟩
  · by_cases h : effectiveTtl defaultTtl e < now - e.timestamp <;>
      simp [cacheGet, h]
  · by_cases h : effectiveTtl defaultTtl e < now - e.timestamp <;>
      simp [cacheGet, h]
  · intro h
    simp [cacheGet, h]
  · intro v hv hv0
    simp [effectiveTtl, hv, hv0]
  · intro hv
    simp [effectiveTtl, hv]
  · intro hv
    simp [effectiveTtl, hv]

/-- Closed instances of `cacheGet_expiry_spec`: an entry stored with no
override under default TTL 100 is expired and deleted at `now = 101`, and
the zero-override entry takes the default TTL. -/
theorem cacheGet_expiry_spec_witness :
    (cacheGet 100 101 (some ⟨0, none⟩)).2 = none ∧
    effectiveTtl 100 ⟨0, some 0⟩ = 100 ∧
    effectiveTtl 100 ⟨0, some 7⟩ = 7 :=
  ⟨(cacheGet_expiry_spec 100 101 ⟨0, none⟩).2.2.1 (by decide),
    (cacheGet_expiry_spec 100 1 ⟨0, some 0⟩).2.2.2.2.2 rfl,
    (cacheGet_expiry_spec 100 1 ⟨0, some 7⟩).2.2.2.1 7 rfl (by decide)⟩

/-! ## C1: health status derivation -/

theorem healthyCount_le_four (c : HealthChecks) : healthyCount c ≤ 4 := by
  rcases c with ⟨a, b, x, y⟩
  revert a b x y
  decide

theorem healthyCount_eq_four_iff (c : HealthChecks) :
    healthyCount c = 4 ↔
      (c.highSuccessRate = true ∧ c.noRecentErrors = true ∧
        c.reasonableResponseTime = true ∧ c.authWorking = true) := by
  rcases c with ⟨a, b, x, y⟩
  revert a b x y
  decide

theorem ratThreshold (n : Nat) : 4 * (7 / 10 : ℚ) ≤ (n : ℚ) ↔ 3 ≤ n := by
  rw [show (4 * (7 / 10 : ℚ)) = 14 / 5 by norm_num]
  rw [div_le_iff₀ (by norm_num : (0 : ℚ) < 5)]
  constructor
  · intro h
    have h' : (14 : ℚ) ≤ 5 * (n : ℚ) := by linarith
    have h'' : (14 : Nat) ≤ 5 * n := by exact_mod_cast h'
    omega
  · intro h
    have h' : (3 : ℚ) ≤ (n : ℚ) := by exact_mod_cast h
    linarith

/-- C1 counterexample: `scenarioNoAuth` — 100 recorded requests of which
96 succeeded, no recorded error, average latency 200 ms, and 0 auth
failures, but also 0 auth successes — satisfies everything the claim's
scenario lists, yet `authWorking` is `0 < 0 = false`, only 3 of the 4
checks pass, and the status is `degraded`, not `healthy`. -/
theorem healthStatus_scenario_counterexample :
    scenarioNoAuth.requests.total = 100 ∧
    scenarioNoAuth.requests.successful = 96 ∧
    scenarioNoAuth.errors.lastErrorTime = none ∧
    scenarioNoAuth.requests.avgResponseTime = 200 ∧
    scenarioNoAuth.auth.failed = 0 ∧
    healthyCount (getChecks scenarioNoAuth 0) = 3 ∧
    getHealthStatus scenarioNoAuth 0 = HealthStatus.degraded := by
  have d1 : decide (95 ≤ successRate scenarioNoAuth) = true := by
    rw [decide_eq_true_eq, successRate]
    norm_num [scenarioNoAuth]
  have d4 : decide ((scenarioNoAuth.auth.failed : ℚ) <
      (scenarioNoAuth.auth.successful : ℚ) * (1 / 10)) = false := by
    rw [decide_eq_false_iff_not]
    norm_num [scenarioNoAuth]
  have hcount : healthyCount (getChecks scenarioNoAuth 0) = 3 := by
    simp only [healthyCount, getChecks, ge_iff_le]
    rw [d1, d4]
    rfl
  refine ⟨rfl, rfl, rfl, by norm_num [scenarioNoAuth], rfl, hcount, ?_⟩
  rw [getHealthStatus]
  simp only [hcount]
  norm_num

/-- C1 amended: `getHealthStatus` derives the four boolean checks
(success rate ≥ 95%, no error within the last 5 minutes, average latency
< 5000 ms, auth failures < 10% of auth successes) and returns `healthy`
iff all four hold, `degraded` iff at least 70% but not all hold, else
`unhealthy`; and the scenario state — 100 recorded requests of which 96
succeeded, no recorded recent error, average latency 200 ms, 0 auth
failures *and at least one auth success* — is `healthy` with all 4 checks
passing. -/
theorem getHealthStatus_spec (m : HealthMetrics) (now : Nat) :
    ((getChecks m now).highSuccessRate = true ↔ 95 ≤ successRate m) ∧
    ((getChecks m now).noRecentErrors = true ↔
      ∀ t, m.errors.lastErrorTime = some t → 5 * 60 * 1000 < now - t) ∧
    ((getChecks m now).reasonableResponseTime = true ↔
      m.requests.avgResponseTime < 5000) ∧
    ((getChecks m now).authWorking = true ↔
      (m.auth.failed : ℚ) < (m.auth.successful : ℚ) * (1 / 10)) ∧
    (getHealthStatus m now = HealthStatus.healthy ↔
      healthyCount (getChecks m now) = 4) ∧
    (getHealthStatus m now = HealthStatus.degraded ↔
      (healthyCount (getChecks m now) ≠ 4 ∧
        4 * (7 / 10 : ℚ) ≤ (healthyCount (getChecks m now) : ℚ))) ∧
    (getHealthStatus m now = HealthStatus.unhealthy ↔
      healthyCount (getChecks m now) < 3) ∧
    (m.requests.total = 100 → m.requests.successful = 96 →
      m.errors.lastErrorTime = none → m.requests.avgResponseTime = 200 →
      m.auth.failed = 0 → 0 < m.auth.successful →
      healthyCount (getChecks m now) = 4 ∧
        getHealthStatus m now = HealthStatus.healthy) := by
  have hle := healthyCount_le_four (getChecks m now)
  have hthr := ratThreshold (healthyCount (getChecks m now))
  refine ⟨?_, ?_, ?_, ?_, ?_, ?_, ?_, ?_⟩
  · simp [getChecks]
  · rcases he : m.errors.lastErrorTime with _ | t <;> simp [getChecks, he]
  · simp [getChecks]
  · simp [getChecks]
  · simp only [getHealthStatus]
    split
    · simp [*]
    · split <;> simp [*]
  · simp only [getHealthStatus]
    split
    · rename_i h4
      simp [h4]
    · rename_i h4
      split
      · rename_i hge
        simp [h4, hge]
      · rename_i hge
        simp [h4, hge]
  · simp only [getHealthStatus]
    split
    · rename_i h4
      simp [h4]
    · rename_i h4
      split
      · rename_i hge
        have h3 : 3 ≤ healthyCount (getChecks m now) := hthr.mp hge
        constructor
        · intro h
          exact absurd h (by decide)
        · intro h
          exact absurd h (by omega)
      · rename_i hge
        have h3 : healthyCount (getChecks m now) < 3 := by
          have hh := mt hthr.mpr hge
          omega
        simp [h3]
  · intro h100 h96 herr h200 hf hs
    have hall : healthyCount (getChecks m now) = 4 := by
      rw [healthyCount_eq_four_iff]
      refine ⟨?_, ?_, ?_, ?_⟩
      · simp only [getChecks, decide_eq_true_eq]
        rw [successRate, if_pos (by rw [h100]; norm_num)]
        rw [h100, h96]
        norm_num
      · simp [getChecks, herr]
      · simp only [getChecks, decide_eq_true_eq]
        rw [h200]
        norm_num
      · simp only [getChecks, decide_eq_true_eq]
        rw [hf]
        have hs' : (1 : ℚ) ≤ (m.auth.successful : ℚ) := by
          exact_mod_cast hs
        push_cast
        linarith
    refine ⟨hall, ?_⟩
    simp [getHealthStatus, hall]

/-- Closed instance of `getHealthStatus_spec`: the scenario state with one
recorded auth success is healthy with all four checks passing. -/
theorem getHealthStatus_spec_witness :
    healthyCount (getChecks scenarioOneAuth 0) = 4 ∧
    getHealthStatus scenarioOneAuth 0 = HealthStatus.healthy :=
  (getHealthStatus_spec scenarioOneAuth 0).2.2.2.2.2.2.2
    rfl rfl rfl rfl rfl (by decide)

/-! ## C10: health check with no recorded auth activity -/

/-- C10: when zero auth successes have been recorded, the `authWorking`
check is `false` even with zero recorded auth failures (the comparison is
`0 < 0`), so such a monitor never reports `healthy`. -/
theorem authWorking_zero_successes (m : HealthMetrics) (now : Nat)
    (hs : m.auth.successful = 0) :
    (getChecks m now).authWorking = false ∧
    getHealthStatus m now ≠ HealthStatus.healthy := by
  have hfalse : (getChecks m now).authWorking = false := by
    simp only [getChecks, hs]
    simp
  refine ⟨hfalse, ?_⟩
  have hcount : healthyCount (getChecks m now) ≠ 4 := by
    rcases hck : getChecks m now with ⟨a, b, c, d⟩
    rw [hck] at hfalse
    simp only at hfalse
    subst hfalse
    rcases a <;> rcases b <;> rcases c <;> decide
  simp only [getHealthStatus, hcount, if_false]
  split <;> simp

/-- Closed instance of `authWorking_zero_successes` on the metrics object
with every counter at zero. -/
theorem authWorking_zero_successes_witness :
    (getChecks ⟨⟨0, 0, 0, 0⟩, ⟨0, 0, 0⟩, ⟨0, 0⟩, ⟨0, none⟩⟩ 0).authWorking
        = false ∧
    getHealthStatus ⟨⟨0, 0, 0, 0⟩, ⟨0, 0, 0⟩, ⟨0, 0⟩, ⟨0, none⟩⟩ 0 ≠
      HealthStatus.healthy :=
  authWorking_zero_successes ⟨⟨0, 0, 0, 0⟩, ⟨0, 0, 0⟩, ⟨0, 0⟩, ⟨0, none⟩⟩ 0
    rfl

/-! ## C5, C6: batch result distribution -/

theorem resolveFrom_getElem {ρ τ : Type} (ε : Type) (results : List τ) :
    ∀ (reqs : List ρ) (j i : Nat),
      (resolveFrom results j reqs : List (ρ × Outcome ε τ))[i]? =
        (reqs[i]?).map fun r => (r, Outcome.resolved results[j + i]?) := by
  intro reqs
  induction reqs with
  | nil => intro j i; simp [resolveFrom]
  | cons r rs ih =>
      intro j i
      cases i with
      | zero => simp [resolveFrom]
      | succ i' =>
          have hidx : j + (i' + 1) = (j + 1) + i' := by omega
          simp only [resolveFrom, List.getElem?_cons_succ, hidx]
          exact ih (j + 1) i'

theorem resolveFrom_length {ρ τ : Type} (ε : Type) (results : List τ) :
    ∀ (reqs : List ρ) (j : Nat),
      (resolveFrom results j reqs : List (ρ × Outcome ε τ)).length =
        reqs.length := by
  intro reqs
  induction reqs with
  | nil => intro j; rfl
  | cons r rs ih => intro j; simp [resolveFrom, ih]

/-- C5: when the executor succeeds, results are distributed strictly by
position — the settled list has one outcome per pending request, in
enqueue order, and the `i`-th pending request resolves with the `i`-th
element of the executor's result list. -/
theorem settleBatch_ok_positional {ρ ε τ : Type} (reqs : List ρ)
    (results : List τ) (i : Nat) :
    (settleBatch reqs (Except.ok results : Except ε (List τ))).length =
      reqs.length ∧
    (settleBatch reqs (Except.ok results : Except ε (List τ)))[i]? =
      (reqs[i]?).map fun r => (r, Outcome.resolved results[i]?) := by
  constructor
  · exact resolveFrom_length ε results reqs 0
  · have h := resolveFrom_getElem ε results reqs 0 i
    simpa using h

/-- C6: when the executor fails, every one of the `N` pending requests of
that flush is rejected with the same error — no member resolves. -/
theorem settleBatch_error_uniform {ρ ε : Type} (τ : Type) (reqs : List ρ)
    (e : ε) :
    (settleBatch reqs (Except.error e : Except ε (List τ))).length =
      reqs.length ∧
    ∀ o ∈ settleBatch reqs (Except.error e : Except ε (List τ)),
      o.2 = Outcome.rejected e := by
  constructor
  · simp [settleBatch]
  · intro o ho
    simp only [settleBatch, List.mem_map] at ho
    obtain ⟨r, -, hr⟩ := ho
    rw [← hr]

/-- Closed instance of `settleBatch_error_uniform`: with two pending
requests and error `7`, the first settled outcome is a rejection with
that error. -/
theorem settleBatch_error_uniform_witness :
    ((1 : Nat), (Outcome.rejected 7 : Outcome Nat Nat)).2 =
      Outcome.rejected 7 :=
  (settleBatch_error_uniform Nat [1, 2] 7).2 (1, Outcome.rejected 7)
    (by simp [settleBatch])

/-! ## C3: cache size bound and FIFO eviction -/

theorem mapSet_length_le {α : Type} (k : Nat) (v : α) (m : List (Nat × α)) :
    (mapSet k v m).length ≤ m.length + 1 := by
  induction m with
  | nil => simp [mapSet]
  | cons hd tl ih =>
      obtain ⟨k', v'⟩ := hd
      by_cases hk : k' = k <;> simp [mapSet, hk]
      omega

theorem cacheSet_length_le {maxSize : Nat} (hmax : 1 ≤ maxSize)
    {m : List (Nat × CacheEntry)} (hm : m.length ≤ maxSize) (k : Nat)
    (e : CacheEntry) : (cacheSet maxSize m k e).length ≤ maxSize := by
  rw [cacheSet]
  by_cases hge : m.length ≥ maxSize
  · have hlen : m.length = maxSize := le_antisymm hm hge
    rcases m with _ | ⟨⟨k0, e0⟩, rest⟩
    · simp at hlen
      omega
    · simp only [hge, if_true, mapFirstKey, List.head?, Option.map_some']
      rw [mapDelete, if_pos rfl]
      have h1 := mapSet_length_le k e rest
      simp only [List.length_cons] at hlen
      omega
  · simp only [hge, if_false]
    have h1 := mapSet_length_le k e m
    omega

theorem cacheFold_length_le {maxSize : Nat} (hmax : 1 ≤ maxSize) :
    ∀ (ops : List (Nat × CacheEntry)) (m : List (Nat × CacheEntry)),
      m.length ≤ maxSize →
      (ops.foldl (fun m op => cacheSet maxSize m op.1 op.2) m).length ≤
        maxSize := by
  intro ops
  induction ops with
  | nil => intro m hm; simpa using hm
  | cons op rest ih =>
      intro m hm
      simpa [List.foldl_cons] using
        ih (cacheSet maxSize m op.1 op.2) (cacheSet_length_le hmax hm op.1 op.2)

/-- C3: under any sequence of `set` calls the cache never exceeds
`maxSize` entries, and whenever a `set` happens while the entry count is
at least `maxSize`, the one evicted entry is the head of the map's
iteration order — the earliest-inserted surviving entry (insertion-order
FIFO: `this.cache.keys().next().value`, not recency of access) — so the
resulting map is the old map minus its head, with the new entry written
through JS `Map.set` semantics. -/
theorem cache_bounded_fifo (maxSize : Nat) (hmax : 1 ≤ maxSize) :
    (∀ ops : List (Nat × CacheEntry),
      (cacheRun maxSize ops).length ≤ maxSize) ∧
    (∀ (k0 : Nat) (e0 : CacheEntry) (rest : List (Nat × CacheEntry))
        (k : Nat) (e : CacheEntry),
      maxSize ≤ ((k0, e0) :: rest).length →
      cacheSet maxSize ((k0, e0) :: rest) k e = mapSet k e rest) := by
  constructor
  · intro ops
    exact cacheFold_length_le hmax ops [] (by simp)
  · intro k0 e0 rest k e hge
    rw [cacheSet]
    simp only [ge_iff_le, hge, if_true, mapFirstKey, List.head?,
      Option.map_some']
    rw [mapDelete, if_pos rfl]

/-- Closed instance of `cache_bounded_fifo` with `maxSize = 1`: two
stores leave a single entry, and a store into a full one-entry cache
evicts that earliest entry. -/
theorem cache_bounded_fifo_witness :
    (cacheRun 1 [(1, ⟨0, none⟩), (2, ⟨5, none⟩)]).length ≤ 1 ∧
    cacheSet 1 [(5, ⟨0, none⟩)] 6 ⟨1, none⟩ = mapSet 6 ⟨1, none⟩ [] :=
  ⟨(cache_bounded_fifo 1 (by decide)).1 [(1, ⟨0, none⟩), (2, ⟨5, none⟩)],
    (cache_bounded_fifo 1 (by decide)).2 5 ⟨0, none⟩ [] 6 ⟨1, none⟩
      (by decide)⟩


/-! ## C7: every batch group is flushed at most once

The observable meaning of "flushed at most once" over a whole run: no
request id ever reaches an executor twice.  `step_perm` is the key
accounting fact — each step conserves request ids, moving them between
the batch map and the flush output. -/

theorem perm_append_swap (a b c : List Nat) :
    (a ++ (b ++ c)).Perm (b ++ (a ++ c)) := by
  rw [← List.append_assoc, ← List.append_assoc]
  exact List.perm_append_comm.append_right c

theorem pendingIds_of_get_some {key : Nat} {g : Group} :
    ∀ {s : List (Nat × Group)}, mapGet key s = some g →
      (pendingIds s).Perm (g.requests ++ pendingIds (mapDelete key s)) := by
  intro s
  induction s with
  | nil => intro h; simp [mapGet] at h
  | cons hd tl ih =>
      obtain ⟨k', g'⟩ := hd
      intro h
      by_cases hk : k' = key
      · subst hk
        rw [mapGet, if_pos rfl, Option.some.injEq] at h
        subst h
        rw [mapDelete, if_pos rfl]
        simp [pendingIds]
      · rw [mapGet, if_neg hk] at h
        rw [mapDelete, if_neg hk]
        simp only [pendingIds, List.map_cons, List.flatten_cons]
        exact ((ih h).append_left g'.requests).trans
          (perm_append_swap g'.requests g.requests _)

theorem pendingIds_set_of_get_some {key : Nat} {g : Group}
    (rq : List Nat) (ex : Nat) :
    ∀ {s : List (Nat × Group)}, mapGet key s = some g →
      (pendingIds (mapSet key ⟨rq, ex⟩ s)).Perm
        (rq ++ pendingIds (mapDelete key s)) := by
  intro s
  induction s with
  | nil => intro h; simp [mapGet] at h
  | cons hd tl ih =>
      obtain ⟨k', g'⟩ := hd
      intro h
      by_cases hk : k' = key
      · subst hk
        rw [mapSet, if_pos rfl]
        rw [mapDelete, if_pos rfl]
        simp [pendingIds]
      · rw [mapGet, if_neg hk] at h
        rw [mapSet, if_neg hk]
        rw [mapDelete, if_neg hk]
        simp only [pendingIds, List.map_cons, List.flatten_cons]
        exact ((ih h).append_left g'.requests).trans
          (perm_append_swap g'.requests rq _)

theorem pendingIds_set_of_get_none {key : Nat} (rq : List Nat) (ex : Nat)
    {s : List (Nat × Group)} (h : mapGet key s = none) :
    pendingIds (mapSet key ⟨rq, ex⟩ s) = pendingIds s ++ rq := by
  rw [mapSet_of_get_none key ⟨rq, ex⟩ h]
  simp [pendingIds]

theorem flushedIds_append (a b : List Flush) :
    flushedIds (a ++ b) = flushedIds a ++ flushedIds b := by
  simp [flushedIds]

theorem flushedIds_optToList (o : Option Flush) :
    flushedIds o.toList = optFlushIds o := by
  cases o <;> simp [flushedIds, optFlushIds]

/-- `step` on an `add` with no open group for the key. -/
theorem step_add_none {maxB key : Nat} {s : List (Nat × Group)}
    (hg : mapGet key s = none) (req exec : Nat) :
    step maxB s (.add key req exec) =
      if maxB ≤ 1 then
        (mapDelete key (mapSet key ⟨[req], exec⟩ s), some ⟨[req], exec⟩)
      else (mapSet key ⟨[req], exec⟩ s, none) := by
  simp [step, hg]

/-- `step` on an `add` into an open group. -/
theorem step_add_some {maxB key : Nat} {s : List (Nat × Group)} {g : Group}
    (hg : mapGet key s = some g) (req exec : Nat) :
    step maxB s (.add key req exec) =
      if maxB ≤ (g.requests ++ [req]).length then
        (mapDelete key (mapSet key ⟨g.requests ++ [req], g.timerExec⟩ s),
          some ⟨g.requests ++ [req], exec⟩)
      else (mapSet key ⟨g.requests ++ [req], g.timerExec⟩ s, none) := by
  simp [step, hg]

/-- `step` on a timer callback whose group is gone is a no-op. -/
theorem step_fire_none {maxB key : Nat} {s : List (Nat × Group)}
    (hg : mapGet key s = none) : step maxB s (.fire key) = (s, none) := by
  simp [step, hg]

/-- `step` on a timer callback with an open group flushes it with the
executor captured at group creation. -/
theorem step_fire_some {maxB key : Nat} {s : List (Nat × Group)} {g : Group}
    (hg : mapGet key s = some g) :
    step maxB s (.fire key) =
      (mapDelete key s, some ⟨g.requests, g.timerExec⟩) := by
  simp [step, hg]

/-- Conservation of request ids by one batcher step: the pending ids
afterwards plus the flushed ids are a permutation of the pending ids
before plus the id just enqueued (if the event was an `add`). -/
theorem step_perm (maxB : Nat) (s : List (Nat × Group)) (e : BEvent) :
    (pendingIds (step maxB s e).1 ++ optFlushIds (step maxB s e).2).Perm
      (pendingIds s ++ addIds [e]) := by
  cases e with
  | add key req exec =>
      rcases hg : mapGet key s with _ | g
      · rw [step_add_none hg req exec]
        by_cases hful : maxB ≤ 1
        · rw [if_pos hful]
          rw [mapSet_of_get_none key ⟨[req], exec⟩ hg,
            mapDelete_append_self key _ hg]
          simp [optFlushIds, addIds]
        · rw [if_neg hful]
          rw [pendingIds_set_of_get_none [req] exec hg]
          simp [optFlushIds, addIds]
      · rw [step_add_some hg req exec]
        have h3 := pendingIds_of_get_some hg
        by_cases hful : maxB ≤ (g.requests ++ [req]).length
        · rw [if_pos hful]
          rw [mapDelete_mapSet key ⟨g.requests ++ [req], g.timerExec⟩ hg]
          simp only [optFlushIds, addIds]
          rw [← List.append_assoc]
          exact (List.perm_append_comm.append_right [req]).trans
            (h3.symm.append_right [req])
        · rw [if_neg hful]
          simp only [optFlushIds, addIds, List.append_nil]
          refine (pendingIds_set_of_get_some (g.requests ++ [req])
            g.timerExec hg).trans ?_
          rw [List.append_assoc]
          refine (List.perm_append_comm.append_left g.requests).trans ?_
          rw [← List.append_assoc]
          exact h3.symm.append_right [req]
  | fire key =>
      rcases hg : mapGet key s with _ | g
      · rw [step_fire_none hg]
        simp [optFlushIds, addIds]
      · rw [step_fire_some hg]
        simp only [optFlushIds, addIds, List.append_nil]
        exact List.perm_append_comm.trans (pendingIds_of_get_some hg).symm

/-- Invariant induction over a run: if the pending ids plus an
accumulator are distinct and future `add` ids are fresh and distinct,
then after the run the pending ids plus all flushed ids plus the
accumulator are still distinct. -/
theorem runB_nodup_aux (maxB : Nat) :
    ∀ (events : List BEvent) (s : List (Nat × Group)) (acc : List Nat),
      (pendingIds s ++ acc).Nodup →
      (∀ r ∈ addIds events, r ∉ pendingIds s ++ acc) →
      (addIds events).Nodup →
      (pendingIds (runB maxB s events).1 ++
        (flushedIds (runB maxB s events).2 ++ acc)).Nodup := by
  intro events
  induction events with
  | nil =>
      intro s acc h1 h2 h3
      simpa [runB, flushedIds] using h1
  | cons e es ih =>
      intro s acc h1 h2 h3
      simp only [runB]
      have hperm := step_perm maxB s e
      have perm3 :
          (pendingIds (step maxB s e).1 ++
            (optFlushIds (step maxB s e).2 ++ acc)).Perm
          ((pendingIds s ++ addIds [e]) ++ acc) := by
        rw [← List.append_assoc]
        exact hperm.append_right acc
      have hT : ((pendingIds s ++ addIds [e]) ++ acc).Nodup := by
        cases e with
        | add key req exec =>
            have hr : req ∉ pendingIds s ++ acc := h2 req (by simp [addIds])
            have hperm2 : ((pendingIds s ++ addIds [.add key req exec]) ++
                acc).Perm ((pendingIds s ++ acc) ++ [req]) := by
              show ((pendingIds s ++ [req]) ++ acc).Perm _
              rw [List.append_assoc, List.append_assoc]
              exact List.perm_append_comm.append_left (pendingIds s)
            have hdisj : (pendingIds s ++ acc).Disjoint [req] := by
              intro x hx hmem
              rw [List.mem_singleton] at hmem
              subst hmem
              exact hr hx
            exact hperm2.nodup_iff.mpr
              (h1.append (List.nodup_singleton req) hdisj)
        | fire key =>
            simpa [addIds] using h1
      have hA : (pendingIds (step maxB s e).1 ++
          (optFlushIds (step maxB s e).2 ++ acc)).Nodup :=
        perm3.nodup_iff.mpr hT
      have hB : ∀ r ∈ addIds es,
          r ∉ pendingIds (step maxB s e).1 ++
            (optFlushIds (step maxB s e).2 ++ acc) := by
        intro r hres hmem
        have hmemT : r ∈ (pendingIds s ++ addIds [e]) ++ acc :=
          perm3.mem_iff.mp hmem
        simp only [List.mem_append] at hmemT
        cases e with
        | add key req exec =>
            rcases hmemT with (hP | hE) | hacc
            · exact h2 r (by simp [addIds, hres]) (List.mem_append_left _ hP)
            · simp only [addIds] at hE
              rw [List.mem_singleton] at hE
              subst hE
              simp only [addIds, List.nodup_cons] at h3
              exact h3.1 hres
            · exact h2 r (by simp [addIds, hres]) (List.mem_append_right _ hacc)
        | fire key =>
            simp only [addIds, List.not_mem_nil] at hmemT
            rcases hmemT with (hP | hE) | hacc
            · exact h2 r (by simp [addIds, hres]) (List.mem_append_left _ hP)
            · exact hE
            · exact h2 r (by simp [addIds, hres]) (List.mem_append_right _ hacc)
      have hC : (addIds es).Nodup := by
        cases e with
        | add key req exec =>
            simp only [addIds, List.nodup_cons] at h3
            exact h3.2
        | fire key => simpa [addIds] using h3
      have hrec := ih (step maxB s e).1 (optFlushIds (step maxB s e).2 ++ acc)
        hA hB hC
      rw [flushedIds_append, flushedIds_optToList]
      have perm4 : ((optFlushIds (step maxB s e).2 ++
          flushedIds (runB maxB (step maxB s e).1 es).2) ++ acc).Perm
          (flushedIds (runB maxB (step maxB s e).1 es).2 ++
            (optFlushIds (step maxB s e).2 ++ acc)) := by
        rw [List.append_assoc]
        exact perm_append_swap _ _ _
      exact ((perm4.append_left
        (pendingIds (runB maxB (step maxB s e).1 es).1)).nodup_iff).mpr hrec

/-- C7: a batch group is never flushed twice.  Over any run of the
batcher in which the enqueued request ids are distinct, the ids handed to
executors remain distinct — no request is delivered to an executor twice,
whatever interleaving of size-triggered flushes and timer callbacks
occurs (including a timer firing for a group already flushed by the size
trigger: the `if (!batch) return` guard makes it a no-op).  Moreover a
size-triggered flush removes the group from the map, so the key's next
enqueue opens a fresh group. -/
theorem batch_flush_once (maxB : Nat) :
    (∀ events : List BEvent, (addIds events).Nodup →
      (flushedIds (runB maxB [] events).2).Nodup) ∧
    (∀ (s : List (Nat × Group)) (key : Nat),
      mapGet key s = none → step maxB s (.fire key) = (s, none)) ∧
    (∀ (s : List (Nat × Group)) (key req exec : Nat) (fl : Flush),
      (s.map Prod.fst).Nodup →
      (step maxB s (.add key req exec)).2 = some fl →
      mapGet key (step maxB s (.add key req exec)).1 = none) := by
  refine ⟨?_, ?_, ?_⟩
  · intro events hnd
    have h := runB_nodup_aux maxB events [] []
      (by simp [pendingIds]) (by intro r hr; simp [pendingIds]) hnd
    rw [List.append_nil] at h
    exact h.of_append_right
  · intro s key hg
    exact step_fire_none hg
  · intro s key req exec fl hnd hfl
    rcases hg : mapGet key s with _ | g
    · rw [step_add_none hg req exec] at hfl ⊢
      by_cases hful : maxB ≤ 1
      · rw [if_pos hful]
        exact mapGet_mapDelete_mapSet_self key _ hnd
      · rw [if_neg hful] at hfl
        simp at hfl
    · rw [step_add_some hg req exec] at hfl ⊢
      by_cases hful : maxB ≤ (g.requests ++ [req]).length
      · rw [if_pos hful]
        exact mapGet_mapDelete_mapSet_self key _ hnd
      · rw [if_neg hful] at hfl
        simp at hfl

/-- Closed instances of `batch_flush_once`: a run where the size trigger
flushes and the stale timer then fires yields distinct flushed ids, a
timer callback for an absent group is a no-op, and a size-triggered flush
leaves no group under the key. -/
theorem batch_flush_once_witness :
    (flushedIds (runB 1 [] [BEvent.add 7 1 100, BEvent.fire 7]).2).Nodup ∧
    step 1 [] (BEvent.fire 9) = ([], none) ∧
    mapGet 7 (step 1 [] (BEvent.add 7 1 100)).1 = none :=
  ⟨(batch_flush_once 1).1 [BEvent.add 7 1 100, BEvent.fire 7] (by decide),
    (batch_flush_once 1).2.1 [] 9 rfl,
    (batch_flush_once 1).2.2 [] 7 1 100 ⟨[1], 100⟩ (by decide) rfl⟩

/-! ## C9: which executor a flush uses -/

/-- After a group is open, further `add`s that stay below `maxBatchSize`
keep the creation-time timer executor, and the timer callback flushes
with it. -/
theorem runB_adds_then_fire (maxB key : Nat) :
    ∀ (later : List (Nat × Nat)) (s : List (Nat × Group)) (g : Group),
      mapGet key s = some g →
      g.requests.length + later.length < maxB →
      (runB maxB s ((later.map fun re => BEvent.add key re.1 re.2) ++
        [BEvent.fire key])).2 =
        [⟨g.requests ++ later.map Prod.fst, g.timerExec⟩] := by
  intro later
  induction later with
  | nil =>
      intro s g hg hlen
      simp only [List.map_nil, List.nil_append, runB]
      rw [step_fire_some hg]
      simp
  | cons re rest ih =>
      intro s g hg hlen
      simp only [List.map_cons, List.cons_append, runB]
      rw [step_add_some hg re.1 re.2]
      have hnotfull : ¬ maxB ≤ (g.requests ++ [re.1]).length := by
        rw [List.length_append]
        simp only [List.length_cons, List.length_nil]
        simp only [List.length_cons] at hlen
        omega
      rw [if_neg hnotfull]
      have hg' : mapGet key
          (mapSet key ⟨g.requests ++ [re.1], g.timerExec⟩ s) =
          some ⟨g.requests ++ [re.1], g.timerExec⟩ :=
        mapGet_mapSet_self key _ s
      have hlen' :
          (Group.requests ⟨g.requests ++ [re.1], g.timerExec⟩).length +
            rest.length < maxB := by
        simp only [List.length_append, List.length_cons, List.length_nil]
        simp only [List.length_cons] at hlen
        omega
      have hrec := ih (mapSet key ⟨g.requests ++ [re.1], g.timerExec⟩ s)
        ⟨g.requests ++ [re.1], g.timerExec⟩ hg' hlen'
      simp [hrec, List.append_assoc]

/-- C9: a group flushed by its timer is executed by the executor supplied
with the `add` that created the group (the one captured by `setTimeout`);
an executor passed with a later enqueue is used only when that very
enqueue triggers the size-based immediate flush, in which case the flush
carries the triggering call's executor. -/
theorem batch_executor_selection (maxB : Nat) :
    (∀ (key r1 e1 : Nat) (later : List (Nat × Nat))
        (s : List (Nat × Group)),
      mapGet key s = none → 1 + later.length < maxB →
      (runB maxB s (BEvent.add key r1 e1 ::
        ((later.map fun re => BEvent.add key re.1 re.2) ++
          [BEvent.fire key]))).2 =
        [⟨r1 :: later.map Prod.fst, e1⟩]) ∧
    (∀ (s : List (Nat × Group)) (key req exec : Nat) (g : Group),
      mapGet key s = some g → maxB ≤ (g.requests ++ [req]).length →
      (step maxB s (.add key req exec)).2 =
        some ⟨g.requests ++ [req], exec⟩) := by
  constructor
  · intro key r1 e1 later s hg hlen
    simp only [runB]
    rw [step_add_none hg r1 e1]
    have hnot : ¬ maxB ≤ 1 := by omega
    rw [if_neg hnot]
    have hg' : mapGet key (mapSet key ⟨[r1], e1⟩ s) = some ⟨[r1], e1⟩ :=
      mapGet_mapSet_self key _ s
    have hrun := runB_adds_then_fire maxB key later
      (mapSet key ⟨[r1], e1⟩ s) ⟨[r1], e1⟩ hg' (by simpa using hlen)
    simp [hrun]
  · intro s key req exec g hg hful
    rw [step_add_some hg req exec, if_pos hful]

/-- Closed instances of `batch_executor_selection`: a group created with
executor `100`, grown with an `add` carrying executor `101`, is
timer-flushed with executor `100`; a size-triggering `add` carrying
executor `101` flushes with `101`. -/
theorem batch_executor_selection_witness :
    (runB 3 [] (BEvent.add 7 1 100 ::
      (([(2, 101)].map fun re => BEvent.add 7 re.1 re.2) ++
        [BEvent.fire 7]))).2 =
      [⟨1 :: [(2, 101)].map Prod.fst, 100⟩] ∧
    (step 2 [(7, ⟨[1], 100⟩)] (BEvent.add 7 2 101)).2 =
      some ⟨[1] ++ [2], 101⟩ :=
  ⟨(batch_executor_selection 3).1 7 1 100 [(2, 101)] [] rfl (by decide),
    (batch_executor_selection 2).2 [(7, ⟨[1], 100⟩)] 7 2 101 ⟨[1], 100⟩ rfl
      (by decide)⟩

end CenterpointConnect
